import Mathlib

/-!
Shallow embedding of the VNC server core of `src/i_vnc.c` (chocolate-doom VNC
fork), together with proofs about the client-message dispatcher, the pump
loop, and the Raw and Tight frame encoders.

Machine integers are modelled as `Nat` for unsigned byte arithmetic and as
`Int` with an explicit 32-bit wrap (`wrap32`) where the C `int` overflow
behaviour matters.  The receive buffer `client_packet` is modelled as the
list of its valid bytes, so `packet_cursor` is the length of that list.
-/

namespace VncSpec

def VNC_PACKET_SIZE : Nat := 1024

def VNC_RAW : Nat := 0
def VNC_TIGHT : Nat := 7

def ev_keydown : Nat := 0
def ev_keyup : Nat := 1
def ev_mouse : Nat := 2

/-- Two-complement interpretation of an `Int` reduced to 32 bits, the wrap
behaviour of the C `int` arithmetic in `i_vnc.c`. -/
def wrap32 (v : Int) : Int := (v + 2 ^ 31) % 2 ^ 32 - 2 ^ 31

/-- A 32-bit unsigned value reinterpreted as a signed C `int`. -/
def toInt32 (v : Nat) : Int := wrap32 v

/-- Modelled from the spec: engine key codes from `doomkeys.h`, which is not
part of `src/`.  The named-keysym branches of `HandleVNCMessage` map into
these codes; their exact values never matter for the theorems below. -/
def KEY_F1 : Int := 187
def KEY_F2 : Int := 188
def KEY_F3 : Int := 189
def KEY_F4 : Int := 190
def KEY_F5 : Int := 191
def KEY_F6 : Int := 192
def KEY_F7 : Int := 193
def KEY_F8 : Int := 194
def KEY_F9 : Int := 195
def KEY_F10 : Int := 196
def KEY_F11 : Int := 215
def KEY_F12 : Int := 216
def KEY_LEFTARROW : Int := 0xac
def KEY_UPARROW : Int := 0xad
def KEY_RIGHTARROW : Int := 0xae
def KEY_DOWNARROW : Int := 0xaf
def KEY_PAUSE : Int := 0xff
def KEY_RSHIFT : Int := 182
def KEY_RCTRL : Int := 157
def KEY_RALT : Int := 184
def KEY_CAPSLOCK : Int := 186
def KEY_SCRLCK : Int := 198
def KEY_NUMLOCK : Int := 197
def KEY_PRTSCR : Int := 183
def KEY_HOME : Int := 199
def KEY_END : Int := 207
def KEY_PGUP : Int := 201
def KEY_PGDN : Int := 209
def KEY_INS : Int := 210

/-- The static `vnc_keysym_unshifted` table of `i_vnc.c` (128 entries, a zero
entry meaning "maps to itself"). -/
def vnc_keysym_unshifted : List Nat :=
  [0, 0, 0, 0, 0, 0, 0, 0, 0, 0, 0, 0, 0, 0, 0, 0,
   0, 0, 0, 0, 0, 0, 0, 0, 0, 0, 0, 0, 0, 0, 0, 0,
   0,            -- space
   0x31,         -- exclamation mark to 1
   0x27,         -- double quote to single quote
   0x33,         -- hash to 3
   0x34,         -- dollar to 4
   0x35,         -- percent to 5
   0x37,         -- ampersand to 7
   0,            -- single quote
   0x39,         -- open paren to 9
   0x30,         -- close paren to 0
   0x38,         -- star to 8
   0x3d,         -- plus to equals
   0, 0, 0, 0,   -- comma dash dot slash
   0, 0, 0, 0, 0, 0, 0, 0, 0, 0, -- digits
   0x3b,         -- colon to semicolon
   0,            -- semicolon
   0x2c,         -- less-than to comma
   0,            -- equals
   0x2e,         -- greater-than to dot
   0x2f,         -- question mark to slash
   0x32,         -- at sign to 2
   0x61, 0x62, 0x63, 0x64, 0x65, 0x66, 0x67, 0x68, 0x69, 0x6a, 0x6b, 0x6c, 0x6d,
   0x6e, 0x6f, 0x70, 0x71, 0x72, 0x73, 0x74, 0x75, 0x76, 0x77, 0x78, 0x79, 0x7a,
   0,            -- open bracket
   0,            -- backslash
   0,            -- close bracket
   0x36,         -- caret to 6
   0x2d,         -- underscore to dash
   0,            -- backtick
   0, 0, 0, 0, 0, 0, 0, 0, 0, 0, 0, 0, 0,
   0, 0, 0, 0, 0, 0, 0, 0, 0, 0, 0, 0, 0, -- lower case alphabet
   0x5b,         -- open brace to open bracket
   0x5c,         -- pipe to backslash
   0x5d,         -- close brace to close bracket
   0x60,         -- tilde to backtick
   0]            -- DEL

/-- Engine event record, mirroring `event_t` as used in `i_vnc.c`. -/
structure Ev where
  type : Nat
  data1 : Int
  data2 : Int
  data3 : Int
deriving Repr, DecidableEq

/-- The fields of `vnc_server_t` that the message path touches.  The buffer
holds exactly the `packet_cursor` valid bytes, so the cursor is its length.
The `quit` flag records the `VNC_Exit` plus `I_Quit` path. -/
structure VncServer where
  client_packet : List Nat
  send_frame : Bool
  text_input : Bool
  encoding : Nat
  mouse_x : Int
  mouse_y : Int
  quit : Bool
deriving Repr, DecidableEq

/-- The three staging variables of `VNC_PumpMessages` that the dispatcher
writes through pointers (`new_mouse_x`, `new_mouse_y`, `mouse_buttons`). -/
structure Staging where
  new_mouse_x : Int
  new_mouse_y : Int
  mouse_buttons : Int
deriving Repr, DecidableEq

def stagingInit : Staging := { new_mouse_x := -1, new_mouse_y := -1, mouse_buttons := -1 }

/-- The keysym `switch` of the `VNC_CLIENT_KEYEVENT` case: a matching named
keysym is replaced by its engine code and marked known; otherwise the keysym
is unchanged and known only when at most `0x7f` (a signed comparison). -/
def translateKeysym (k : Int) : Int × Bool :=
  if k = 0xff1b then (0x1b, true)
  else if k = 0xff08 then (0x08, true)
  else if k = 0xff09 then (0x09, true)
  else if k = 0xff0d then (0x0d, true)
  else if k = 0xffff then (0x1b, true)
  else if k = 0xffbe then (KEY_F1, true)
  else if k = 0xffbf then (KEY_F2, true)
  else if k = 0xffc0 then (KEY_F3, true)
  else if k = 0xffc1 then (KEY_F4, true)
  else if k = 0xffc2 then (KEY_F5, true)
  else if k = 0xffc3 then (KEY_F6, true)
  else if k = 0xffc4 then (KEY_F7, true)
  else if k = 0xffc5 then (KEY_F8, true)
  else if k = 0xffc6 then (KEY_F9, true)
  else if k = 0xffc7 then (KEY_F10, true)
  else if k = 0xffc8 then (KEY_F11, true)
  else if k = 0xffc9 then (KEY_F12, true)
  else if k = 0xff51 then (KEY_LEFTARROW, true)
  else if k = 0xff52 then (KEY_UPARROW, true)
  else if k = 0xff53 then (KEY_RIGHTARROW, true)
  else if k = 0xff54 then (KEY_DOWNARROW, true)
  else if k = 0xff13 then (KEY_PAUSE, true)
  else if k = 0xffe1 then (KEY_RSHIFT, true)
  else if k = 0xffe2 then (KEY_RSHIFT, true)
  else if k = 0xffe3 then (KEY_RCTRL, true)
  else if k = 0xffe4 then (KEY_RCTRL, true)
  else if k = 0xffe9 then (KEY_RALT, true)
  else if k = 0xffea then (KEY_RALT, true)
  else if k = 0xffe5 then (KEY_CAPSLOCK, true)
  else if k = 0xff14 then (KEY_SCRLCK, true)
  else if k = 0xff7f then (KEY_NUMLOCK, true)
  else if k = 0xff61 then (KEY_PRTSCR, true)
  else if k = 0xff50 then (KEY_HOME, true)
  else if k = 0xff57 then (KEY_END, true)
  else if k = 0xff55 then (KEY_PGUP, true)
  else if k = 0xff56 then (KEY_PGDN, true)
  else if k = 0xff63 then (KEY_INS, true)
  else (k, decide (k ≤ 0x7f))

/-- Table lookup `vnc_keysym_unshifted[keysym]`.  A negative keysym indexes
the array out of bounds in the C source; the model reads 0 there. -/
def lookupUnshifted (k : Int) : Nat := vnc_keysym_unshifted.getD k.toNat 0

/-- The `SETENCODINGS` scan loop: walk `encoding_count` big-endian 32-bit
entries starting at `off`, stopping early once `VNC_TIGHT` is found. -/
def scanTight (pb : Nat → Nat) (off : Nat) : Nat → Bool
  | 0 => false
  | count + 1 =>
    let encoding := toInt32 ((pb off <<< 24) ||| (pb (off + 1) <<< 16) |||
                             (pb (off + 2) <<< 8) ||| pb (off + 3))
    if encoding = (VNC_TIGHT : Int) then true else scanTight pb (off + 4) count

/-- The byte read `packet_base[i]`, i.e. `client_packet[message_scan_pos + i]`. -/
def packetByte (sv : VncServer) (scan i : Nat) : Nat := sv.client_packet.getD (scan + i) 0

/-- The local `data_left = packet_cursor - message_scan_pos`. -/
def dataLeft (sv : VncServer) (scan : Nat) : Nat := sv.client_packet.length - scan

/-- The locals `encoding_count` and `expect_length` of the `SETENCODINGS`
case, and its scan for a Tight entry. -/
def setEncodingsCount (sv : VncServer) (scan : Nat) : Nat :=
  (packetByte sv scan 2 <<< 8) ||| packetByte sv scan 3

def setEncodingsLength (sv : VncServer) (scan : Nat) : Nat :=
  4 + setEncodingsCount sv scan * 4

def setEncodingsTight (sv : VncServer) (scan : Nat) : Bool :=
  scanTight (packetByte sv scan) 4 (setEncodingsCount sv scan)

/-- The `keysym` local of the `KEYEVENT` case before the named-symbol
switch: a big-endian 32-bit load into a C `int`. -/
def keyEventSym (sv : VncServer) (scan : Nat) : Int :=
  toInt32 ((packetByte sv scan 4 <<< 24) ||| (packetByte sv scan 5 <<< 16) |||
           (packetByte sv scan 6 <<< 8) ||| packetByte sv scan 7)

/-- The `keysym_lowercase` computation: unshift via the table when the
keysym is printable and the table has a entry for it. -/
def unshiftKey (k : Int) : Int :=
  if k ≤ 0x7f ∧ lookupUnshifted k ≠ 0 then (lookupUnshifted k : Int) else k

/-- The `event_t` filled in by the `KEYEVENT` case for a known keysym
(post-switch value `keysym`). -/
def keyEvent (text_input : Bool) (is_keydown : Nat) (keysym : Int) : Ev :=
  { type := if is_keydown ≠ 0 then ev_keydown else ev_keyup
    data1 := unshiftKey keysym
    data2 := if is_keydown ≠ 0 then unshiftKey keysym else 0
    data3 := if is_keydown ≠ 0 ∧ text_input then keysym else 0 }

/-- The staging values written by a complete `POINTEREVENT`: absolute
coordinates and the repacked button mask
`left | right << 1 | middle << 2 | scroll_up << 3 | scroll_down << 4`,
where each name holds the masked (not normalized) bit as in the source. -/
def pointerStaging (sv : VncServer) (scan : Nat) : Staging :=
  { new_mouse_x := ((packetByte sv scan 2 <<< 8) ||| packetByte sv scan 3 : Nat)
    new_mouse_y := ((packetByte sv scan 4 <<< 8) ||| packetByte sv scan 5 : Nat)
    mouse_buttons :=
      (((packetByte sv scan 1 &&& 0x1) |||
        ((packetByte sv scan 1 &&& 0x4) <<< 1) |||
        ((packetByte sv scan 1 &&& 0x2) <<< 2) |||
        ((packetByte sv scan 1 &&& 0x8) <<< 3) |||
        ((packetByte sv scan 1 &&& 0x10) <<< 4) : Nat) : Int) }

/-- The `encoding_count` (signed!) and `expect_length` locals of the
`CLIENTCUTTEXT` case. -/
def cutTextCount (sv : VncServer) (scan : Nat) : Int :=
  toInt32 ((packetByte sv scan 4 <<< 24) ||| (packetByte sv scan 5 <<< 16) |||
           (packetByte sv scan 6 <<< 8) ||| packetByte sv scan 7)

def cutTextLength (sv : VncServer) (scan : Nat) : Int :=
  wrap32 (8 + cutTextCount sv scan)

/-- The message dispatcher `HandleVNCMessage`.  Returns the C `int` result
(new scan position, `-1` incomplete, `-2` unknown) plus updated server state,
staging variables, and the events posted through `D_PostEvent`.  Note that in
the source the `VNC_CLIENT_CLIENTCUTTEXT` case has no `break` and falls
through to `default` when the message is incomplete. -/
def HandleVNCMessage (sv : VncServer) (scan : Nat) (stg : Staging) :
    Int × VncServer × Staging × List Ev :=
  if dataLeft sv scan = 0 then (-1, sv, stg, [])
  else if packetByte sv scan 0 = 0 then
    -- VNC_CLIENT_SETPIXELFORMAT: px_size = byte 4, true_color = byte 7
    if dataLeft sv scan ≥ 20 then
      if packetByte sv scan 7 = 0 then (-1, { sv with quit := true }, stg, [])
      else if packetByte sv scan 4 ≠ 32 then (-1, { sv with quit := true }, stg, [])
      else ((scan : Int) + 20, sv, stg, [])
    else (-1, sv, stg, [])
  else if packetByte sv scan 0 = 2 then
    -- VNC_CLIENT_SETENCODINGS
    if dataLeft sv scan ≥ 4 then
      if dataLeft sv scan ≥ setEncodingsLength sv scan then
        ((scan : Int) + setEncodingsLength sv scan,
         { sv with encoding := if setEncodingsTight sv scan then VNC_TIGHT else VNC_RAW },
         stg, [])
      else (-1, sv, stg, [])
    else (-1, sv, stg, [])
  else if packetByte sv scan 0 = 3 then
    -- VNC_CLIENT_FRAMEBUFFERUPDATEREQUEST
    if dataLeft sv scan ≥ 10 then ((scan : Int) + 10, { sv with send_frame := true }, stg, [])
    else (-1, sv, stg, [])
  else if packetByte sv scan 0 = 4 then
    -- VNC_CLIENT_KEYEVENT: is_keydown = byte 1, keysym = bytes 4..7
    if dataLeft sv scan ≥ 8 then
      if (translateKeysym (keyEventSym sv scan)).2 = false then ((scan : Int) + 8, sv, stg, [])
      else
        ((scan : Int) + 8, sv, stg,
         [keyEvent sv.text_input (packetByte sv scan 1) (translateKeysym (keyEventSym sv scan)).1])
    else (-1, sv, stg, [])
  else if packetByte sv scan 0 = 5 then
    -- VNC_CLIENT_POINTEREVENT
    if dataLeft sv scan ≥ 6 then ((scan : Int) + 6, sv, pointerStaging sv scan, [])
    else (-1, sv, stg, [])
  else if packetByte sv scan 0 = 6 then
    -- VNC_CLIENT_CLIENTCUTTEXT; incomplete messages fall through to default
    if dataLeft sv scan ≥ 8 then
      if (dataLeft sv scan : Int) ≥ cutTextLength sv scan then
        ((scan : Int) + cutTextLength sv scan, sv, stg, [])
      else (-2, sv, stg, [])
    else (-2, sv, stg, [])
  else (-2, sv, stg, [])

/-- `FinalizeVNCMessages`: move the residual tail to offset 0 and make the
cursor count the leftover bytes. -/
def FinalizeVNCMessages (sv : VncServer) (offset : Nat) : VncServer :=
  { sv with client_packet := sv.client_packet.drop offset }

/-- The inner `while (message_scan_pos >= 0)` loop of `VNC_PumpMessages`,
with explicit fuel since the C loop need not terminate.  On exit it yields
the final negative result, `old_scan_pos`, and the accumulated state,
staging values, and posted events. -/
def scanLoop : Nat → VncServer → Nat → Staging → List Ev →
    Option (Int × Nat × VncServer × Staging × List Ev)
  | 0, _, _, _, _ => none
  | fuel + 1, sv, scan, stg, evs =>
    let r := HandleVNCMessage sv scan stg
    if r.1 ≥ 0 then scanLoop fuel r.2.1 r.1.toNat r.2.2.1 (evs ++ r.2.2.2)
    else some (r.1, scan, r.2.1, r.2.2.1, evs ++ r.2.2.2)

/-- The receive-and-parse body of the `do while (events == 1)` loop of
`VNC_PumpMessages`, iterated over the list of chunks `recv` returns: append
the chunk, run the scan loop from position 0, then compact the residue —
except after a `-2` result, where the source only logs. -/
def pumpChunks (fuel : Nat) : VncServer → Staging → List (List Nat) →
    Option (VncServer × Staging × List Ev)
  | sv, stg, [] => some (sv, stg, [])
  | sv, stg, chunk :: rest =>
    let sv1 : VncServer := { sv with client_packet := sv.client_packet ++ chunk }
    match scanLoop fuel sv1 0 stg [] with
    | none => none
    | some (r, old_scan, sv2, stg2, evs) =>
      let sv3 := if r = -2 then sv2 else FinalizeVNCMessages sv2 old_scan
      match pumpChunks fuel sv3 stg2 rest with
      | none => none
      | some (sv4, stg4, evs4) => some (sv4, stg4, evs ++ evs4)

/-- `VNC_PumpMessages`: drain the chunks the socket delivers, then post the
single coalesced mouse event if any pointer message was seen. -/
def VNC_PumpMessages (fuel : Nat) (sv : VncServer) (chunks : List (List Nat)) :
    Option (VncServer × List Ev) :=
  match pumpChunks fuel sv stagingInit chunks with
  | none => none
  | some (sv1, stg, evs) =>
    if stg.new_mouse_x ≠ -1 then
      some ({ sv1 with mouse_x := stg.new_mouse_x, mouse_y := stg.new_mouse_y },
            evs ++ [{ type := ev_mouse, data1 := stg.mouse_buttons
                      data2 := stg.new_mouse_x - sv1.mouse_x
                      data3 := stg.new_mouse_y - sv1.mouse_y }])
    else some (sv1, evs)

/-- The pixel loop of `SendRawVNCFrame`: four bytes per palette index, in
row-major order. -/
def SendRawVNCFrame_payload (palette : List Nat) : List Nat → List Nat
  | [] => []
  | f :: rest =>
    palette.getD (f * 3 + 2) 0 :: palette.getD (f * 3 + 1) 0 ::
    palette.getD (f * 3) 0 :: 0 :: SendRawVNCFrame_payload palette rest

/-- Written from the wording of the spec: a Raw-capable viewer reads the
payload four bytes at a time as `B, G, R, pad` and reconstructs the 24-bit
color `(R, G, B)` of each pixel. -/
def decodeRawViewer : List Nat → List (Nat × Nat × Nat)
  | b :: g :: r :: _pad :: rest => (r, g, b) :: decodeRawViewer rest
  | _ => []

/-- The emission loop of `SendTightVNCFrame` over the frame bytes: a 5-byte
stored-block header whenever `zlib_block_capacity` reaches 0 (a final header
when at most `0xffff` bytes remain), then the literal byte, updating the
Adler accumulators by conditional subtraction.  Returns the emitted bytes and
the final `(adler_s1, adler_s2)`. -/
def tightLoop : List Nat → Nat → Nat → Nat → Nat → List Nat × Nat × Nat
  | [], _, _, s1, s2 => ([], s1, s2)
  | b :: rest, data_left, cap, s1, s2 =>
    let hdr : List Nat :=
      if cap = 0 then
        if data_left ≤ 0xffff then
          [1, data_left &&& 0xff, (data_left >>> 8) &&& 0xff,
           255 - (data_left &&& 0xff), 255 - ((data_left >>> 8) &&& 0xff)]
        else [0, 0xff, 0xff, 0, 0]
      else []
    let cap1 := if cap = 0 then 0xffff else cap
    let s1a := if s1 + b ≥ 65521 then s1 + b - 65521 else s1 + b
    let s2a := if s2 + s1a ≥ 65521 then s2 + s1a - 65521 else s2 + s1a
    let r := tightLoop rest (data_left - 1) (cap1 - 1) s1a s2a
    (hdr ++ b :: r.1, r.2)

/-- The precomputed zlib stream size of `SendTightVNCFrame`: 6 framing bytes
plus the frame data plus 5 bytes per predicted block, where the source
predicts `(frame_data_size >> 16) + 1` blocks. -/
def tight_zlib_data_size (frame_data_size : Nat) : Nat :=
  6 + frame_data_size + 5 * ((frame_data_size >>> 16) + 1)

/-- The compact-length encoding of the Tight protocol as emitted by
`SendTightVNCFrame`. -/
def tightCompactLength (v : Nat) : List Nat :=
  if v < 0x80 then [v]
  else if v < 0x4000 then
    [(1 <<< 7) ||| (v &&& 0x7f), (v >>> 7) &&& 0x7f]
  else
    [(1 <<< 7) ||| (v &&& 0x7f), (1 <<< 7) ||| ((v >>> 7) &&& 0x7f), (v >>> 14) &&& 0xff]

/-- The synthetic zlib stream of `SendTightVNCFrame`: CMF, FLG, the stored
blocks with their literals, and the big-endian Adler-32 trailer. -/
def tightZlibStream (frame : List Nat) : List Nat :=
  let r := tightLoop frame frame.length 0 1 0
  [(1 <<< 6) ||| (1 <<< 5) ||| (1 <<< 4) ||| (1 <<< 3), 1] ++ r.1 ++
  [(r.2.2 >>> 8) &&& 0xff, r.2.2 &&& 0xff, (r.2.1 >>> 8) &&& 0xff, r.2.1 &&& 0xff]

/-- The Tight body assembled by `SendTightVNCFrame` after the rectangle
header: compression control, palette filter, 256-color palette, compact
length, then the synthetic zlib stream. -/
def SendTightVNCFrame_body (palette frame : List Nat) : List Nat :=
  ((1 <<< 6) ||| 1) :: 1 :: 255 ::
  ((List.range 768).map fun i => palette.getD i 0) ++
  tightCompactLength (tight_zlib_data_size frame.length) ++
  tightZlibStream frame

/-- A stored DEFLATE block as emitted by the loop of `SendTightVNCFrame`:
the `BFINAL` header byte, the 16-bit `LEN` and `NLEN` values, and the
literal bytes the block carries. -/
structure StoredBlock where
  bfinal : Nat
  len : Nat
  nlen : Nat
  lits : List Nat
deriving Repr, DecidableEq

/-- Serialization of a stored block: header byte, little-endian `LEN`,
little-endian `NLEN`, then the literals — the exact bytes the emission loop
writes. -/
def encodeStoredBlock (b : StoredBlock) : List Nat :=
  b.bfinal :: b.len % 256 :: b.len / 256 % 256 :: b.nlen % 256 :: b.nlen / 256 % 256 :: b.lits

/-- The structured view of the blocks the emission loop of
`SendTightVNCFrame` produces: full blocks of `0xffff` literals while more
than `0xffff` bytes remain, then one final block with the rest. -/
def storedBlocks (frame : List Nat) : List StoredBlock :=
  if frame.length = 0 then []
  else if _h : 0xffff < frame.length then
    { bfinal := 0, len := 0xffff, nlen := 0, lits := frame.take 0xffff } ::
      storedBlocks (frame.drop 0xffff)
  else
    [{ bfinal := 1, len := frame.length, nlen := 0xffff - frame.length, lits := frame }]
termination_by frame.length
decreasing_by simp only [List.length_drop]; omega

/-- Number of 5-byte stored-block headers the emission loop writes for `len`
literal bytes when the running block capacity starts at `cap`. -/
def headerCount : Nat → Nat → Nat
  | 0, _ => 0
  | len + 1, 0 => 1 + headerCount len 65534
  | len + 1, cap + 1 => headerCount len cap

/-- Written from the wording of the spec: the unshift table maps every
character a US keyboard produces with Shift held to the unshifted key, and
every other printable character to itself. -/
def specUnshift (k : Nat) : Nat :=
  if 0x41 ≤ k ∧ k ≤ 0x5a then k + 0x20
  else if k = 0x21 then 0x31
  else if k = 0x40 then 0x32
  else if k = 0x23 then 0x33
  else if k = 0x24 then 0x34
  else if k = 0x25 then 0x35
  else if k = 0x5e then 0x36
  else if k = 0x26 then 0x37
  else if k = 0x2a then 0x38
  else if k = 0x28 then 0x39
  else if k = 0x29 then 0x30
  else if k = 0x5f then 0x2d
  else if k = 0x2b then 0x3d
  else if k = 0x7b then 0x5b
  else if k = 0x7d then 0x5d
  else if k = 0x7c then 0x5c
  else if k = 0x3a then 0x3b
  else if k = 0x22 then 0x27
  else if k = 0x3c then 0x2c
  else if k = 0x3e then 0x2e
  else if k = 0x3f then 0x2f
  else if k = 0x7e then 0x60
  else k

/-- Written from the wording of the claim: the mouse mask repacked from the
button-mask BITS as 0/1 values, with bit 0 = left, bit 1 = middle,
bit 2 = right, bit 3 = scroll-up, bit 4 = scroll-down in the incoming mask,
combined as `left | right <<< 1 | middle <<< 2 | scroll_up <<< 3 |
scroll_down <<< 4`.  To be compared with the mask the source stores, which
shifts the masked values instead of the bits. -/
def specButtonRepack (m : Nat) : Nat :=
  (m &&& 1) |||
  (((m >>> 2) &&& 1) <<< 1) |||
  (((m >>> 1) &&& 1) <<< 2) |||
  (((m >>> 3) &&& 1) <<< 3) |||
  (((m >>> 4) &&& 1) <<< 4)

/-- One step of the Adler-32 recurrence as the spec states it: mod-65521
updates of `s1` then `s2`. -/
def specAdlerStep (s : Nat × Nat) (b : Nat) : Nat × Nat :=
  ((s.1 + b) % 65521, (s.2 + (s.1 + b) % 65521) % 65521)

/-- The spec Adler-32 accumulators over a byte sequence, starting from
`s1 = 1`, `s2 = 0`. -/
def specAdler (frame : List Nat) : Nat × Nat := frame.foldl specAdlerStep (1, 0)

/-- The `SETENCODINGS` loop of `HandleVNCMessage`, instrumented: the list of
`client_packet` indices it dereferences, in order, stopping early when a
Tight encoding is found. -/
def scanTightReads (buf : Nat → Nat) (base off : Nat) : Nat → List Nat
  | 0 => []
  | count + 1 =>
    let encoding := toInt32 ((buf (base + off) <<< 24) ||| (buf (base + off + 1) <<< 16) |||
                             (buf (base + off + 2) <<< 8) ||| buf (base + off + 3))
    [base + off, base + off + 1, base + off + 2, base + off + 3] ++
    (if encoding = (VNC_TIGHT : Int) then [] else scanTightReads buf base (off + 4) count)

/-- Instrumented read trace of `HandleVNCMessage`: the sequence of
`client_packet` indices the C function dereferences for a buffer with
`packet_cursor` valid bytes, following the order of the source statements.
Field loads that the source performs before the completeness check appear
before it here too. -/
def HandleVNCMessageReads (buf : Nat → Nat) (packet_cursor scan : Nat) : List Nat :=
  let data_left : Int := (packet_cursor : Int) - (scan : Int)
  if data_left = 0 then []
  else
    scan ::
    (if buf scan = 0 then
      -- px_size and true_color are loaded before the data_left check
      [scan + 4, scan + 7]
    else if buf scan = 2 then
      if data_left ≥ 4 then
        let encoding_count := (buf (scan + 2) <<< 8) ||| buf (scan + 3)
        [scan + 2, scan + 3] ++ scanTightReads buf scan 4 encoding_count
      else []
    else if buf scan = 3 then []
    else if buf scan = 4 then
      -- is_keydown and the keysym bytes are loaded before the check
      [scan + 1, scan + 4, scan + 5, scan + 6, scan + 7]
    else if buf scan = 5 then
      -- x_pos, y_pos, then five separate loads of the button byte
      [scan + 2, scan + 3, scan + 4, scan + 5, scan + 1, scan + 1, scan + 1, scan + 1, scan + 1]
    else if buf scan = 6 then
      if data_left ≥ 8 then
        let encoding_count : Int :=
          toInt32 ((buf (scan + 4) <<< 24) ||| (buf (scan + 5) <<< 16) |||
                   (buf (scan + 6) <<< 8) ||| buf (scan + 7))
        let expect_length : Int := wrap32 (8 + encoding_count)
        [scan + 4, scan + 5, scan + 6, scan + 7] ++
        (if data_left ≥ expect_length then [scan] else [])
      else []
    else [])

/-! ## Helper lemmas -/

theorem and_255_eq_mod (m : Nat) : m &&& 255 = m % 256 := by
  have h := Nat.and_pow_two_sub_one_eq_mod m 8
  simpa using h

theorem shiftRight_8_eq_div (m : Nat) : m >>> 8 = m / 256 := by
  simpa using Nat.shiftRight_eq_div_pow m 8

theorem wrap32_small (v : Int) (h0 : 0 ≤ v) (h1 : v < 2 ^ 31) : wrap32 v = v := by
  unfold wrap32
  omega

/-- Number of 5-byte headers for `len` bytes with full capacity left equals
one plus the count for the remaining bytes at capacity 65534. -/
theorem headerCount_succ (len : Nat) : headerCount (len + 1) 0 = 1 + headerCount len 65534 := rfl

theorem headerCount_succ_succ (len cap : Nat) :
    headerCount (len + 1) (cap + 1) = headerCount len cap := rfl

theorem headerCount_of_le : ∀ cap len, len ≤ cap → headerCount len cap = 0 := by
  intro cap
  induction cap with
  | zero => intro len h; interval_cases len; rfl
  | succ c ih =>
    intro len h
    match len with
    | 0 => rfl
    | len + 1 => rw [headerCount_succ_succ]; exact ih len (by omega)

theorem headerCount_of_gt : ∀ cap len, cap < len → headerCount len cap = headerCount (len - cap) 0 := by
  intro cap
  induction cap with
  | zero => intro len _; rfl
  | succ c ih =>
    intro len h
    match len, h with
    | len + 1, h =>
      rw [headerCount_succ_succ, ih len (by omega)]
      congr 1
      omega

/-- The emitted bytes of the loop do not depend on the checksum
accumulators. -/
theorem tightLoop_fst_indep :
    ∀ (frame : List Nat) (dl cap s1 s2 t1 t2 : Nat),
      (tightLoop frame dl cap s1 s2).1 = (tightLoop frame dl cap t1 t2).1 := by
  intro frame
  induction frame with
  | nil => intro dl cap s1 s2 t1 t2; rfl
  | cons b rest ih =>
    intro dl cap s1 s2 t1 t2
    simp only [tightLoop]
    exact congrArg _ (congrArg _ (ih (dl - 1) _ _ _ _ _))

/-- The emitted bytes of the loop of `SendTightVNCFrame`, started from the
initial checksum accumulators. -/
def tightLoopData (frame : List Nat) (dl cap : Nat) : List Nat :=
  (tightLoop frame dl cap 1 0).1

theorem tightLoopData_def (frame : List Nat) (dl cap : Nat) :
    (tightLoop frame dl cap 1 0).1 = tightLoopData frame dl cap := rfl

theorem tightLoopData_cons_succ (b : Nat) (rest : List Nat) (dl c : Nat) :
    tightLoopData (b :: rest) dl (c + 1) = b :: tightLoopData rest (dl - 1) c := by
  simp only [tightLoopData, tightLoop, if_neg (Nat.succ_ne_zero c), List.nil_append,
    Nat.add_sub_cancel]
  exact congrArg _ (tightLoop_fst_indep rest (dl - 1) c _ _ _ _)

theorem tightLoopData_cons_zero (b : Nat) (rest : List Nat) (dl : Nat) :
    tightLoopData (b :: rest) dl 0 =
      (if dl ≤ 0xffff then
        [1, dl &&& 0xff, (dl >>> 8) &&& 0xff, 255 - (dl &&& 0xff), 255 - ((dl >>> 8) &&& 0xff)]
       else [0, 0xff, 0xff, 0, 0]) ++ b :: tightLoopData rest (dl - 1) 65534 := by
  simp only [tightLoopData, tightLoop, if_pos rfl, show (65535 : Nat) - 1 = 65534 from rfl]
  exact congrArg _ (congrArg _ (tightLoop_fst_indep rest (dl - 1) 65534 _ _ _ _))

/-- The byte list the emission loop produces has one five-byte header per
`headerCount` step besides the literals. -/
theorem tightLoopData_length :
    ∀ (frame : List Nat) (dl cap : Nat),
      (tightLoopData frame dl cap).length = frame.length + 5 * headerCount frame.length cap := by
  intro frame
  induction frame with
  | nil => intro dl cap; simp [tightLoopData, tightLoop, headerCount]
  | cons b rest ih =>
    intro dl cap
    cases cap with
    | zero =>
      rw [tightLoopData_cons_zero, List.length_append, List.length_cons, ih,
        List.length_cons, headerCount_succ]
      have h5 : (if dl ≤ 0xffff then
          [1, dl &&& 0xff, (dl >>> 8) &&& 0xff, 255 - (dl &&& 0xff), 255 - ((dl >>> 8) &&& 0xff)]
         else [0, 0xff, 0xff, 0, 0]).length = 5 := by split <;> rfl
      rw [h5]
      ring
    | succ c =>
      rw [tightLoopData_cons_succ, List.length_cons, ih, List.length_cons, headerCount_succ_succ]
      omega

/-- Claim C1 (status `code_bug`).  The spec requires Pump to discard the
entire buffer after a `-2` dispatcher result (`packet_cursor := 0`), and the
source even logs that it is flushing; but the `-2` branch of
`VNC_PumpMessages` only prints and never touches `packet_cursor`.  Pumping a
single unknown byte `0xFE` into an empty buffer leaves the byte buffered and
the cursor at 1. -/
theorem pump_unknown_message_keeps_buffer :
    VNC_PumpMessages 2 ⟨[], false, false, 0, 0, 0, false⟩ [[0xFE]] =
      some (⟨[0xFE], false, false, 0, 0, 0, false⟩, []) ∧
    (⟨[0xFE], false, false, 0, 0, 0, false⟩ : VncServer).client_packet.length = 1 := by
  exact ⟨by decide, by decide⟩

/-- Claim C2, counterexample.  A buffered `ClientCutText` with only its type
byte present is incomplete, yet the dispatcher returns `-2`, not the `-1`
the claim states: the `case VNC_CLIENT_CLIENTCUTTEXT` has no `break` and
falls through to `default`. -/
theorem cuttext_incomplete_returns_minus_two :
    (HandleVNCMessage ⟨[6], false, false, 0, 0, 0, false⟩ 0 stagingInit).1 = -2 := by
  decide

/-- The full synthetic zlib stream is 6 framing bytes plus the literals plus
5 bytes per emitted stored-block header. -/
theorem tightZlibStream_length (frame : List Nat) :
    (tightZlibStream frame).length = 6 + frame.length + 5 * headerCount frame.length 0 := by
  simp only [tightZlibStream, tightLoopData_def, List.length_append, List.length_cons,
    List.length_nil, tightLoopData_length]
  omega

/-- Claim C3 (status `code_bug`).  At `frame_data_size = 131071` the
announced compact length is `6 + n + 5·((n >> 16) + 1) = 131087`, but the
emission loop writes one 5-byte stored-block header per `ceil(n / 65535)`
blocks, producing a zlib stream of `131092` bytes — the advertised length
understates the stream the encoder actually sends. -/
theorem tight_compact_length_mismatch :
    tight_zlib_data_size 131071 = 131087 ∧
    (tightZlibStream (List.replicate 131071 0)).length = 131092 := by
  constructor
  · rw [tight_zlib_data_size, Nat.shiftRight_eq_div_pow]
  · have h1 : headerCount 131071 0 = 1 + headerCount 131070 65534 := by
      have := headerCount_succ 131070
      norm_num at this ⊢
      omega
    have h2 : headerCount 131070 65534 = headerCount 65536 0 := by
      have := headerCount_of_gt 65534 131070 (by norm_num)
      norm_num at this
      exact this
    have h3 : headerCount 65536 0 = 1 + headerCount 65535 65534 := by
      have := headerCount_succ 65535
      norm_num at this ⊢
      omega
    have h4 : headerCount 65535 65534 = headerCount 1 0 := by
      have := headerCount_of_gt 65534 65535 (by norm_num)
      norm_num at this
      exact this
    have h5 : headerCount 1 0 = 1 := by decide
    have hhc : headerCount 131071 0 = 3 := by omega
    rw [tightZlibStream_length, List.length_replicate, hhc]

/-- Claim C9 (status `code_bug`).  With `packet_cursor = 1021` and a
`SetPixelFormat` type byte at scan position 1020, the dispatcher loads
`packet_base[4]` and `packet_base[7]` — indices 1024 and 1027 — before the
`data_left >= 20` completeness check, reading past both `packet_cursor` and
the `VNC_PACKET_SIZE`-byte array. -/
theorem dispatcher_reads_out_of_bounds :
    HandleVNCMessageReads (fun _ => 0) 1021 1020 = [1020, 1024, 1027] ∧
    1024 ∈ HandleVNCMessageReads (fun _ => 0) 1021 1020 ∧
    VNC_PACKET_SIZE ≤ 1024 ∧ 1021 ≤ VNC_PACKET_SIZE := by
  refine ⟨by decide, by decide, by decide, by decide⟩

/-- The Adler accumulator updates of the emission loop (conditional
subtraction), taken on their own over the byte list. -/
def adlerLoop : List Nat → Nat → Nat → Nat × Nat
  | [], s1, s2 => (s1, s2)
  | b :: rest, s1, s2 =>
    adlerLoop rest
      (if s1 + b ≥ 65521 then s1 + b - 65521 else s1 + b)
      (if s2 + (if s1 + b ≥ 65521 then s1 + b - 65521 else s1 + b) ≥ 65521
       then s2 + (if s1 + b ≥ 65521 then s1 + b - 65521 else s1 + b) - 65521
       else s2 + (if s1 + b ≥ 65521 then s1 + b - 65521 else s1 + b))

theorem tightLoop_snd : ∀ (frame : List Nat) (dl cap s1 s2 : Nat),
    (tightLoop frame dl cap s1 s2).2 = adlerLoop frame s1 s2 := by
  intro frame
  induction frame with
  | nil => intro dl cap s1 s2; rfl
  | cons b rest ih =>
    intro dl cap s1 s2
    simp only [tightLoop, adlerLoop]
    exact ih _ _ _ _

/-- For byte values the conditional subtraction of the loop agrees with the
mod-65521 recurrence the spec states. -/
theorem adlerLoop_eq_spec : ∀ (frame : List Nat) (s1 s2 : Nat),
    s1 < 65521 → s2 < 65521 → (∀ b ∈ frame, b < 256) →
    adlerLoop frame s1 s2 = frame.foldl specAdlerStep (s1, s2) := by
  intro frame
  induction frame with
  | nil => intro s1 s2 _ _ _; rfl
  | cons b rest ih =>
    intro s1 s2 h1 h2 hb
    have hblt : b < 256 := hb b (List.mem_cons_self b rest)
    have e1 : (if s1 + b ≥ 65521 then s1 + b - 65521 else s1 + b) = (s1 + b) % 65521 := by
      split <;> omega
    simp only [adlerLoop, List.foldl_cons, specAdlerStep, e1]
    have e2 : (if s2 + (s1 + b) % 65521 ≥ 65521 then s2 + (s1 + b) % 65521 - 65521
        else s2 + (s1 + b) % 65521) = (s2 + (s1 + b) % 65521) % 65521 := by
      split <;> omega
    rw [e2]
    exact ih _ _ (by omega) (by omega) (fun x hx => hb x (List.mem_cons_of_mem b hx))

theorem specAdler_foldl_lt : ∀ (frame : List Nat) (s : Nat × Nat),
    s.1 < 65521 → s.2 < 65521 →
    (frame.foldl specAdlerStep s).1 < 65521 ∧ (frame.foldl specAdlerStep s).2 < 65521 := by
  intro frame
  induction frame with
  | nil => intro s h1 h2; exact ⟨h1, h2⟩
  | cons b rest ih =>
    intro s h1 h2
    simp only [List.foldl_cons]
    exact ih _ (by simp [specAdlerStep]; omega) (by simp [specAdlerStep]; omega)

theorem drop_len_sub_append (X : List Nat) (t1 t2 t3 t4 : Nat) :
    (X ++ [t1, t2, t3, t4]).drop ((X ++ [t1, t2, t3, t4]).length - 4) = [t1, t2, t3, t4] := by
  have h : (X ++ [t1, t2, t3, t4]).length - 4 = X.length := by
    simp [List.length_append]
  rw [h, List.drop_left]

/-- Claim C4 (status `confirmed`).  For byte-valued frame data the last four
bytes of the Tight body are the big-endian Adler-32 of the palette-index
bytes in row-major order, computed by the mod-65521 recurrence from
`s1 = 1`, `s2 = 0` and emitted as `s2_hi, s2_lo, s1_hi, s1_lo`. -/
theorem tight_adler_trailer (palette frame : List Nat) (hb : ∀ b ∈ frame, b < 256) :
    (SendTightVNCFrame_body palette frame).drop
        ((SendTightVNCFrame_body palette frame).length - 4) =
      [(specAdler frame).2 / 256, (specAdler frame).2 % 256,
       (specAdler frame).1 / 256, (specAdler frame).1 % 256] := by
  have hadler : (tightLoop frame frame.length 0 1 0).2 = specAdler frame := by
    rw [tightLoop_snd]
    exact adlerLoop_eq_spec frame 1 0 (by norm_num) (by norm_num) hb
  have hlt := specAdler_foldl_lt frame (1, 0) (by norm_num) (by norm_num)
  have hbody : SendTightVNCFrame_body palette frame =
      (((1 <<< 6) ||| 1) :: 1 :: 255 ::
        ((List.range 768).map fun i => palette.getD i 0) ++
        tightCompactLength (tight_zlib_data_size frame.length) ++
        ([(1 <<< 6) ||| (1 <<< 5) ||| (1 <<< 4) ||| (1 <<< 3), 1] ++
          (tightLoop frame frame.length 0 1 0).1)) ++
      [((tightLoop frame frame.length 0 1 0).2.2 >>> 8) &&& 0xff,
       (tightLoop frame frame.length 0 1 0).2.2 &&& 0xff,
       ((tightLoop frame frame.length 0 1 0).2.1 >>> 8) &&& 0xff,
       (tightLoop frame frame.length 0 1 0).2.1 &&& 0xff] := by
    simp [SendTightVNCFrame_body, tightZlibStream, List.append_assoc]
  rw [hbody, drop_len_sub_append, hadler]
  have hs1 : (specAdler frame).1 < 65521 := hlt.1
  have hs2 : (specAdler frame).2 < 65521 := hlt.2
  simp only [and_255_eq_mod, shiftRight_8_eq_div, List.cons.injEq, and_true, true_and]
  simp only [specAdler] at hs1 hs2 ⊢
  omega

theorem storedBlocks_of_nil (frame : List Nat) (h : frame.length = 0) :
    storedBlocks frame = [] := by
  unfold storedBlocks
  rw [if_pos h]

theorem storedBlocks_of_big (frame : List Nat) (h : 0xffff < frame.length) :
    storedBlocks frame =
      { bfinal := 0, len := 0xffff, nlen := 0, lits := frame.take 0xffff } ::
        storedBlocks (frame.drop 0xffff) := by
  conv_lhs => unfold storedBlocks
  rw [if_neg (by omega), dif_pos h]

theorem storedBlocks_of_small (frame : List Nat) (h0 : frame.length ≠ 0)
    (h : ¬ 0xffff < frame.length) :
    storedBlocks frame =
      [{ bfinal := 1, len := frame.length, nlen := 0xffff - frame.length, lits := frame }] := by
  conv_lhs => unfold storedBlocks
  rw [if_neg h0, dif_neg h]

/-- Appending to the front of the loop input without exhausting the running
block capacity emits the prefix bytes with no intervening header. -/
theorem tightLoopData_append :
    ∀ (pre post : List Nat) (dl cap : Nat), pre.length ≤ cap →
      tightLoopData (pre ++ post) dl cap =
        pre ++ tightLoopData post (dl - pre.length) (cap - pre.length) := by
  intro pre
  induction pre with
  | nil => intro post dl cap _; simp [tightLoopData]
  | cons p pre ih =>
    intro post dl cap h
    rcases cap with _ | c
    · simp at h
    · rw [List.cons_append, tightLoopData_cons_succ,
        ih post (dl - 1) c (by simp at h; omega)]
      have e1 : dl - 1 - pre.length = dl - (p :: pre).length := by
        simp only [List.length_cons]; omega
      have e2 : c - pre.length = c + 1 - (p :: pre).length := by
        simp only [List.length_cons]; omega
      rw [e1, e2, List.cons_append]

/-- With enough capacity left for the whole input, the loop emits the
literals alone, with no header. -/
theorem tightLoopData_all :
    ∀ (frame : List Nat) (dl cap : Nat), frame.length ≤ cap → tightLoopData frame dl cap = frame := by
  intro frame
  induction frame with
  | nil => intro dl cap _; rfl
  | cons b rest ih =>
    intro dl cap h
    rcases cap with _ | c
    · simp at h
    · rw [tightLoopData_cons_succ, ih (dl - 1) c (by simp at h; omega)]

/-- Splitting the loop input at the running capacity: the first `cap` bytes
are emitted as literals, then the loop continues with an exhausted
capacity. -/
theorem tightLoopData_split (rest : List Nat) (dl cap : Nat) (h : cap ≤ rest.length) :
    tightLoopData rest dl cap = rest.take cap ++ tightLoopData (rest.drop cap) (dl - cap) 0 := by
  have hl : (rest.take cap).length = cap := by
    simp only [List.length_take]
    omega
  conv_lhs => rw [← List.take_append_drop cap rest]
  rw [tightLoopData_append (rest.take cap) (rest.drop cap) dl cap (by rw [hl]), hl,
    Nat.sub_self]

/-- A frame of at most `0xffff` bytes is emitted as a single final stored
block: final header, then all the literals. -/
theorem tightLoopData_small (frame : List Nat) (h0 : frame ≠ []) (h : frame.length ≤ 0xffff) :
    tightLoopData frame frame.length 0 =
      [1, frame.length &&& 0xff, (frame.length >>> 8) &&& 0xff,
       255 - (frame.length &&& 0xff), 255 - ((frame.length >>> 8) &&& 0xff)] ++ frame := by
  rcases frame with _ | ⟨b, rest⟩
  · exact absurd rfl h0
  · rw [tightLoopData_cons_zero, if_pos h]
    have hlen : (b :: rest).length - 1 = rest.length := by simp
    rw [hlen, tightLoopData_all rest (rest.length) 65534 (by simp at h; omega)]

/-- A frame of more than `0xffff` bytes starts with a non-final full block
of `0xffff` literals, after which the loop continues on the rest with a
fresh capacity. -/
theorem tightLoopData_big (frame : List Nat) (h : 0xffff < frame.length) :
    tightLoopData frame frame.length 0 =
      [0, 0xff, 0xff, 0, 0] ++ frame.take 0xffff ++
        tightLoopData (frame.drop 0xffff) (frame.length - 0xffff) 0 := by
  rcases frame with _ | ⟨b, rest⟩
  · simp at h
  · rw [tightLoopData_cons_zero, if_neg (by omega)]
    have hlen : (b :: rest).length - 1 = rest.length := by simp
    rw [hlen, tightLoopData_split rest rest.length 65534 (by simp at h; omega)]
    have ht : (b :: rest).take 0xffff = b :: rest.take 65534 := rfl
    have hd : (b :: rest).drop 0xffff = rest.drop 65534 := rfl
    have he : (b :: rest).length - 0xffff = rest.length - 65534 := by simp
    rw [ht, hd, he]
    simp [List.append_assoc]

theorem eq_blocks_nil (frame : List Nat) (h0 : frame.length = 0) :
    tightLoopData frame frame.length 0 = (storedBlocks frame).flatMap encodeStoredBlock := by
  have hnil : frame = [] := List.eq_nil_of_length_eq_zero h0
  subst hnil
  simp [storedBlocks_of_nil, tightLoopData, tightLoop]

theorem eq_blocks_small (frame : List Nat) (h0 : frame.length ≠ 0)
    (hbig : ¬ 0xffff < frame.length) :
    tightLoopData frame frame.length 0 = (storedBlocks frame).flatMap encodeStoredBlock := by
  rw [storedBlocks_of_small _ h0 hbig,
    tightLoopData_small _ (by intro hc; exact h0 (by rw [hc]; rfl)) (by omega)]
  simp only [List.flatMap_cons, List.flatMap_nil, List.append_nil, encodeStoredBlock]
  have hle : frame.length ≤ 0xffff := by omega
  simp only [and_255_eq_mod, shiftRight_8_eq_div, List.cons_append, List.nil_append,
    List.cons.injEq, eq_self_iff_true, true_and, and_true]
  omega

theorem encodeStoredBlock_big (l : List Nat) :
    encodeStoredBlock { bfinal := 0, len := 0xffff, nlen := 0, lits := l } =
      [0, 0xff, 0xff, 0, 0] ++ l := by
  rw [encodeStoredBlock]
  norm_num

theorem eq_blocks_big_step (frame : List Nat) (hbig : 0xffff < frame.length)
    (hrec : tightLoopData (frame.drop 0xffff) (frame.length - 0xffff) 0 =
      (storedBlocks (frame.drop 0xffff)).flatMap encodeStoredBlock) :
    tightLoopData frame frame.length 0 = (storedBlocks frame).flatMap encodeStoredBlock := by
  rw [storedBlocks_of_big _ hbig, tightLoopData_big _ hbig, List.flatMap_cons, hrec,
    encodeStoredBlock_big, List.append_assoc]

/-- The flat bytes of the emission loop are exactly the serialization of the
structured block list. -/
theorem tightLoopData_eq_blocks :
    ∀ (n : Nat) (frame : List Nat), frame.length ≤ n →
      tightLoopData frame frame.length 0 = (storedBlocks frame).flatMap encodeStoredBlock := by
  intro n
  induction n with
  | zero => intro frame h; exact eq_blocks_nil frame (by omega)
  | succ n ih =>
    intro frame hlen
    by_cases h0 : frame.length = 0
    · exact eq_blocks_nil frame h0
    · by_cases hbig : 0xffff < frame.length
      · refine eq_blocks_big_step frame hbig ?_
        have hdl : (frame.drop 0xffff).length = frame.length - 0xffff := by simp
        have hrec := ih (frame.drop 0xffff) (by rw [hdl]; omega)
        rw [hdl] at hrec
        exact hrec
      · exact eq_blocks_small frame h0 hbig

theorem storedBlocks_ne_nil (frame : List Nat) (h0 : frame.length ≠ 0) :
    storedBlocks frame ≠ [] := by
  by_cases hbig : 0xffff < frame.length
  · rw [storedBlocks_of_big _ hbig]; exact List.cons_ne_nil _ _
  · rw [storedBlocks_of_small _ h0 hbig]; exact List.cons_ne_nil _ _

/-- The block-list invariants of claim C5, bundled. -/
def blocksOk (frame : List Nat) : Prop :=
  (∀ blk ∈ storedBlocks frame, blk.len + blk.nlen = 0xffff) ∧
  (∀ blk ∈ (storedBlocks frame).dropLast, blk.len = 0xffff ∧ blk.bfinal = 0) ∧
  ((storedBlocks frame).map StoredBlock.len).sum = frame.length ∧
  ((storedBlocks frame).countP fun blk => blk.bfinal == 1) = 1 ∧
  (storedBlocks frame).getLast?.map StoredBlock.bfinal = some 1

theorem blocksOk_small (frame : List Nat) (h0 : frame.length ≠ 0)
    (hbig : ¬ 0xffff < frame.length) : blocksOk frame := by
  unfold blocksOk
  rw [storedBlocks_of_small _ h0 hbig]
  refine ⟨?_, ?_, ?_, ?_, ?_⟩
  · intro blk hblk
    rw [List.mem_singleton] at hblk
    subst hblk
    simp only []
    omega
  · intro blk hblk
    simp at hblk
  · simp
  · rw [List.countP_cons]
    simp
  · rfl

theorem blocksOk_big_step (frame : List Nat) (hbig : 0xffff < frame.length)
    (IH : blocksOk (frame.drop 0xffff))
    (IHne : storedBlocks (frame.drop 0xffff) ≠ []) : blocksOk frame := by
  obtain ⟨p1, p2, p3, p4, p5⟩ := IH
  unfold blocksOk
  rw [storedBlocks_of_big _ hbig]
  refine ⟨?_, ?_, ?_, ?_, ?_⟩
  · intro blk hblk
    rcases List.mem_cons.mp hblk with h | h
    · subst h; rfl
    · exact p1 blk h
  · rw [List.dropLast_cons_of_ne_nil IHne]
    intro blk hblk
    rcases List.mem_cons.mp hblk with h | h
    · subst h; exact ⟨rfl, rfl⟩
    · exact p2 blk h
  · simp only [List.map_cons, List.sum_cons, p3]
    have hdl : (frame.drop 0xffff).length = frame.length - 0xffff := by simp
    rw [hdl]
    omega
  · rw [List.countP_cons]
    simp [p4]
  · obtain ⟨c, l2, hc⟩ := List.exists_cons_of_ne_nil IHne
    rw [hc, List.getLast?_cons_cons, ← hc]
    exact p5

theorem blocksOk_of_ne :
    ∀ (n : Nat) (frame : List Nat), frame.length ≤ n → frame.length ≠ 0 → blocksOk frame := by
  intro n
  induction n with
  | zero => intro frame h h0; omega
  | succ n ih =>
    intro frame hlen h0
    by_cases hbig : 0xffff < frame.length
    · have hdl : (frame.drop 0xffff).length = frame.length - 0xffff := by simp
      exact blocksOk_big_step frame hbig
        (ih (frame.drop 0xffff) (by omega) (by omega))
        (storedBlocks_ne_nil _ (by omega))
    · exact blocksOk_small frame h0 hbig

/-- Claim C5 (status `confirmed`).  The data section of the synthetic zlib
stream is exactly the serialization of the stored-block list, in which every
header satisfies `LEN + NLEN = 0xFFFF` as 16-bit little-endian fields, every
block but the last carries `LEN = 0xFFFF` with `BFINAL = 0`, the `LEN` sum
is `width·height`, and exactly one block — the last — has `BFINAL = 1`. -/
theorem tight_stored_blocks (frame : List Nat) (h0 : frame ≠ []) :
    tightLoopData frame frame.length 0 = (storedBlocks frame).flatMap encodeStoredBlock ∧
    (∀ blk ∈ storedBlocks frame, blk.len + blk.nlen = 0xffff) ∧
    (∀ blk ∈ (storedBlocks frame).dropLast, blk.len = 0xffff ∧ blk.bfinal = 0) ∧
    ((storedBlocks frame).map StoredBlock.len).sum = frame.length ∧
    ((storedBlocks frame).countP fun blk => blk.bfinal == 1) = 1 ∧
    (storedBlocks frame).getLast?.map StoredBlock.bfinal = some 1 := by
  have hne : frame.length ≠ 0 := by
    intro hc
    exact h0 (List.eq_nil_of_length_eq_zero hc)
  have hok := blocksOk_of_ne frame.length frame le_rfl hne
  unfold blocksOk at hok
  exact ⟨tightLoopData_eq_blocks frame.length frame le_rfl,
    hok.1, hok.2.1, hok.2.2.1, hok.2.2.2.1, hok.2.2.2.2⟩

theorem tight_stored_blocks_witness :
    ([0, 1] : List Nat) ≠ [] ∧
    (tightLoopData [0, 1] (List.length ([0, 1] : List Nat)) 0 =
        (storedBlocks [0, 1]).flatMap encodeStoredBlock ∧
      (∀ blk ∈ storedBlocks ([0, 1] : List Nat), blk.len + blk.nlen = 0xffff) ∧
      (∀ blk ∈ (storedBlocks ([0, 1] : List Nat)).dropLast, blk.len = 0xffff ∧ blk.bfinal = 0) ∧
      ((storedBlocks ([0, 1] : List Nat)).map StoredBlock.len).sum =
        List.length ([0, 1] : List Nat) ∧
      ((storedBlocks ([0, 1] : List Nat)).countP fun blk => blk.bfinal == 1) = 1 ∧
      (storedBlocks ([0, 1] : List Nat)).getLast?.map StoredBlock.bfinal = some 1) :=
  ⟨by decide, tight_stored_blocks [0, 1] (by decide)⟩

theorem tight_adler_trailer_witness :
    (∀ b ∈ ([0, 1] : List Nat), b < 256) ∧
    (SendTightVNCFrame_body [] [0, 1]).drop ((SendTightVNCFrame_body [] [0, 1]).length - 4) =
      [(specAdler [0, 1]).2 / 256, (specAdler [0, 1]).2 % 256,
       (specAdler [0, 1]).1 / 256, (specAdler [0, 1]).1 % 256] :=
  ⟨by decide, tight_adler_trailer [] [0, 1] (by decide)⟩

theorem raw_payload_flatMap (palette : List Nat) :
    ∀ frame : List Nat,
      SendRawVNCFrame_payload palette frame =
        frame.flatMap fun p =>
          [palette.getD (3 * p + 2) 0, palette.getD (3 * p + 1) 0, palette.getD (3 * p) 0, 0] := by
  intro frame
  induction frame with
  | nil => rfl
  | cons f rest ih =>
    simp only [SendRawVNCFrame_payload, List.flatMap_cons, ih, List.cons_append,
      List.nil_append]
    rw [Nat.mul_comm f 3]

theorem raw_decode (palette : List Nat) :
    ∀ frame : List Nat,
      decodeRawViewer (SendRawVNCFrame_payload palette frame) =
        frame.map fun p =>
          (palette.getD (3 * p) 0, palette.getD (3 * p + 1) 0, palette.getD (3 * p + 2) 0) := by
  intro frame
  induction frame with
  | nil => rfl
  | cons f rest ih =>
    simp only [SendRawVNCFrame_payload, decodeRawViewer, ih, List.map_cons]
    rw [Nat.mul_comm f 3]

/-- Claim C8 (status `confirmed`).  The Raw payload is one `B, G, R, 0`
four-byte group per pixel in row-major order, with `B = palette[3p+2]`,
`G = palette[3p+1]`, `R = palette[3p]`; a Raw viewer reading the groups back
reconstructs the 24-bit image `(palette[3F], palette[3F+1], palette[3F+2])`
pixel for pixel. -/
theorem raw_frame_roundtrip (palette frame : List Nat) :
    SendRawVNCFrame_payload palette frame =
      frame.flatMap (fun p =>
        [palette.getD (3 * p + 2) 0, palette.getD (3 * p + 1) 0, palette.getD (3 * p) 0, 0]) ∧
    decodeRawViewer (SendRawVNCFrame_payload palette frame) =
      frame.map fun p =>
        (palette.getD (3 * p) 0, palette.getD (3 * p + 1) 0, palette.getD (3 * p + 2) 0) :=
  ⟨raw_payload_flatMap palette frame, raw_decode palette frame⟩

/-- The server state of the C10 failing input: a complete `ClientCutText`
header whose big-endian length field is `0xFFFFFFF8`, i.e. `-8` as the C
`int` the source computes. -/
def svCutTextNeg : VncServer := ⟨[6, 0, 0, 0, 0xff, 0xff, 0xff, 0xf8], false, false, 0, 0, 0, false⟩

theorem handle_cuttext_neg (stg : Staging) :
    HandleVNCMessage svCutTextNeg 0 stg = (0, svCutTextNeg, stg, []) := by
  rfl

/-- Claim C10 (status `code_bug`).  A `ClientCutText` whose length field is
`-8` as a signed 32-bit value makes `expect_length = 0`, so the dispatcher
returns `scan_pos + 0 = scan_pos`: a non-negative result that does not
advance.  The scan loop of `VNC_PumpMessages` therefore never reaches a
negative result — it spins forever on this buffer. -/
theorem cuttext_negative_length_no_progress :
    (HandleVNCMessage svCutTextNeg 0 stagingInit).1 = 0 ∧
    ∀ (fuel : Nat) (stg : Staging) (evs : List Ev),
      scanLoop fuel svCutTextNeg 0 stg evs = none := by
  constructor
  · decide
  · intro fuel
    induction fuel with
    | zero => intro stg evs; rfl
    | succ n ih =>
      intro stg evs
      show scanLoop (n + 1) svCutTextNeg 0 stg evs = none
      rw [scanLoop, handle_cuttext_neg stg]
      simp [ih stg evs]

set_option maxHeartbeats 2000000 in
theorem handle_state (sv : VncServer) (scan : Nat) (stg : Staging) :
    ((HandleVNCMessage sv scan stg).2.1).client_packet = sv.client_packet ∧
    ((HandleVNCMessage sv scan stg).2.1).mouse_x = sv.mouse_x ∧
    ((HandleVNCMessage sv scan stg).2.1).mouse_y = sv.mouse_y := by
  unfold HandleVNCMessage
  split_ifs <;> exact ⟨rfl, rfl, rfl⟩

set_option maxHeartbeats 2000000 in
theorem handle_events (sv : VncServer) (scan : Nat) (stg : Staging) :
    ∀ e ∈ (HandleVNCMessage sv scan stg).2.2.2, e.type = ev_keydown ∨ e.type = ev_keyup := by
  unfold HandleVNCMessage
  split_ifs <;> intro e he <;>
    simp only [List.mem_singleton, List.not_mem_nil] at he
  subst he
  unfold keyEvent
  split <;> simp [ev_keydown, ev_keyup]

/-- State and event invariants of the inner scan loop: the packet and mouse
position are untouched, and every event it posts is a key event appended to
the accumulator. -/
theorem scanLoop_inv :
    ∀ (fuel : Nat) (sv : VncServer) (scan : Nat) (stg : Staging) (evs : List Ev)
      (r : Int) (old : Nat) (sv2 : VncServer) (stg2 : Staging) (evs2 : List Ev),
      scanLoop fuel sv scan stg evs = some (r, old, sv2, stg2, evs2) →
      sv2.client_packet = sv.client_packet ∧ sv2.mouse_x = sv.mouse_x ∧
      sv2.mouse_y = sv.mouse_y ∧
      ∃ evNew, evs2 = evs ++ evNew ∧
        ∀ e ∈ evNew, e.type = ev_keydown ∨ e.type = ev_keyup := by
  intro fuel
  induction fuel with
  | zero =>
    intro sv scan stg evs r old sv2 stg2 evs2 h
    simp [scanLoop] at h
  | succ n ih =>
    intro sv scan stg evs r old sv2 stg2 evs2 h
    rw [scanLoop] at h
    by_cases hge : (HandleVNCMessage sv scan stg).1 ≥ 0
    · rw [if_pos hge] at h
      have hi := ih _ _ _ _ _ _ _ _ _ h
      have hs := handle_state sv scan stg
      have hev := handle_events sv scan stg
      obtain ⟨hp, hx, hy, evNew, heq, hok⟩ := hi
      refine ⟨hp.trans hs.1, hx.trans hs.2.1, hy.trans hs.2.2, ?_⟩
      refine ⟨(HandleVNCMessage sv scan stg).2.2.2 ++ evNew, ?_, ?_⟩
      · rw [heq, List.append_assoc]
      · intro e he
        rcases List.mem_append.mp he with h1 | h1
        · exact hev e h1
        · exact hok e h1
    · rw [if_neg hge] at h
      simp only [Option.some.injEq, Prod.mk.injEq] at h
      obtain ⟨-, -, hsv, hstg, hevs⟩ := h
      have hs := handle_state sv scan stg
      have hev := handle_events sv scan stg
      subst hsv
      refine ⟨hs.1, hs.2.1, hs.2.2, (HandleVNCMessage sv scan stg).2.2.2, hevs.symm, hev⟩

theorem finalize_or_keep_mouse (sv : VncServer) (old : Nat) (c : Prop) [Decidable c] :
    ((if c then sv else FinalizeVNCMessages sv old) : VncServer).mouse_x = sv.mouse_x ∧
    ((if c then sv else FinalizeVNCMessages sv old) : VncServer).mouse_y = sv.mouse_y := by
  split <;> exact ⟨rfl, rfl⟩

/-- State and event invariants of the chunk-processing loop. -/
theorem pumpChunks_inv :
    ∀ (chunks : List (List Nat)) (fuel : Nat) (sv : VncServer) (stg : Staging)
      (sv4 : VncServer) (stg4 : Staging) (evs : List Ev),
      pumpChunks fuel sv stg chunks = some (sv4, stg4, evs) →
      sv4.mouse_x = sv.mouse_x ∧ sv4.mouse_y = sv.mouse_y ∧
      ∀ e ∈ evs, e.type = ev_keydown ∨ e.type = ev_keyup := by
  intro chunks
  induction chunks with
  | nil =>
    intro fuel sv stg sv4 stg4 evs h
    simp only [pumpChunks, Option.some.injEq, Prod.mk.injEq] at h
    obtain ⟨h1, -, h3⟩ := h
    subst h1
    subst h3
    exact ⟨rfl, rfl, by intro e he; simp at he⟩
  | cons c rest ih =>
    intro fuel sv stg sv4 stg4 evs h
    rw [pumpChunks] at h
    cases hscan : scanLoop fuel { sv with client_packet := sv.client_packet ++ c } 0 stg [] with
    | none => rw [hscan] at h; simp at h
    | some out =>
      obtain ⟨r, old, sv2, stg2, evs1⟩ := out
      rw [hscan] at h
      simp only [] at h
      cases hrest : pumpChunks fuel
          (if r = -2 then sv2 else FinalizeVNCMessages sv2 old) stg2 rest with
      | none => rw [hrest] at h; simp at h
      | some out2 =>
        obtain ⟨sv5, stg5, evs5⟩ := out2
        rw [hrest] at h
        simp only [Option.some.injEq, Prod.mk.injEq] at h
        obtain ⟨h1, -, h3⟩ := h
        subst h1
        have hs := scanLoop_inv fuel _ 0 stg [] r old sv2 stg2 evs1 hscan
        have hr := ih fuel _ stg2 sv5 stg5 evs5 hrest
        have hm := finalize_or_keep_mouse sv2 old (r = -2)
        refine ⟨?_, ?_, ?_⟩
        · rw [hr.1, hm.1, hs.2.1]
        · rw [hr.2.1, hm.2, hs.2.2.1]
        · intro e he
          rw [← h3] at he
          rcases List.mem_append.mp he with h1 | h1
          · obtain ⟨evNew, heq, hok⟩ := hs.2.2.2
            rw [heq] at h1
            simp only [List.nil_append] at h1
            exact hok e h1
          · exact hr.2.2 e h1

/-- A complete `POINTEREVENT` consumes six bytes, leaves the server state
alone, posts nothing, and overwrites the staging values with the absolute
position and the repacked button mask of this message. -/
theorem handle_pointer (sv : VncServer) (scan : Nat) (stg : Staging)
    (h0 : packetByte sv scan 0 = 5)
    (hlen : scan + 6 ≤ sv.client_packet.length) :
    HandleVNCMessage sv scan stg = ((scan : Int) + 6, sv, pointerStaging sv scan, []) := by
  have hne : ¬ (dataLeft sv scan = 0) := by unfold dataLeft; omega
  have hge : dataLeft sv scan ≥ 6 := by unfold dataLeft; omega
  simp only [HandleVNCMessage, h0, hne, hge, if_true, if_false]
  norm_num

/-- After a Pump whose staging shows a pointer event was parsed, the single
mouse event is appended after every key event, carrying the staged button
mask and the deltas against the pre-Pump mouse position, and the mouse
position is updated to the staged absolute position. -/
theorem pump_posts_mouse (fuel : Nat) (sv : VncServer) (chunks : List (List Nat))
    (sv1 : VncServer) (stg : Staging) (evs : List Ev)
    (h : pumpChunks fuel sv stagingInit chunks = some (sv1, stg, evs))
    (hx : stg.new_mouse_x ≠ -1) :
    VNC_PumpMessages fuel sv chunks =
      some ({ sv1 with mouse_x := stg.new_mouse_x, mouse_y := stg.new_mouse_y },
        evs ++ [{ type := ev_mouse, data1 := stg.mouse_buttons,
                  data2 := stg.new_mouse_x - sv.mouse_x,
                  data3 := stg.new_mouse_y - sv.mouse_y }]) ∧
    (∀ e ∈ evs, e.type ≠ ev_mouse) := by
  have hinv := pumpChunks_inv chunks fuel sv stagingInit sv1 stg evs h
  constructor
  · simp only [VNC_PumpMessages, h]
    rw [if_pos hx, hinv.1, hinv.2.1]
  · intro e he
    rcases hinv.2.2 e he with h1 | h1 <;> simp [h1, ev_keydown, ev_keyup, ev_mouse]

/-- Claim C6, counterexample.  A Pump over a single complete PointerEvent
with button mask `0x4` (right button only) posts a mouse event with
`data1 = 8`: the source shifts the MASKED value `right_button = mask & 0x4`,
so `right_button << 1` lands at bit 3.  The claim's formula over the 0/1
mask bits gives `right << 1 = 2` for the same input. -/
theorem mouse_mask_repack_counterexample :
    VNC_PumpMessages 5 ⟨[], false, false, 0, 0, 0, false⟩ [[5, 4, 0, 10, 0, 20]] =
      some (⟨[], false, false, 0, 10, 20, false⟩, [⟨ev_mouse, 8, 10, 20⟩]) ∧
    specButtonRepack 4 = 2 := by
  exact ⟨by decide, by decide⟩

/-- Claim C6, amended (status `corrected`).  A complete PointerEvent stores
the absolute position and the mask
`left | right<<1 | middle<<2 | scroll_up<<3 | scroll_down<<4` computed from
the MASKED button values (`left = m & 1`, `right = m & 4`, `middle = m & 2`,
`scroll_up = m & 8`, `scroll_down = m & 16`, so right and middle both land
at bit 3, scroll-up at bit 6, scroll-down at bit 8) into the staging
variables without posting anything; and a Pump that parsed at least one
PointerEvent posts exactly one mouse event, after all key events of the
batch, carrying the staged mask and the deltas against the pre-Pump
`mouse_x`, `mouse_y`, which are then set to the staged absolute position. -/
theorem pump_mouse_coalescing :
    (∀ (sv : VncServer) (scan : Nat) (stg : Staging),
       packetByte sv scan 0 = 5 →
       scan + 6 ≤ sv.client_packet.length →
       HandleVNCMessage sv scan stg =
         ((scan : Int) + 6, sv,
          { new_mouse_x := ((packetByte sv scan 2 <<< 8) ||| packetByte sv scan 3 : Nat)
            new_mouse_y := ((packetByte sv scan 4 <<< 8) ||| packetByte sv scan 5 : Nat)
            mouse_buttons :=
              (((packetByte sv scan 1 &&& 0x1) |||
                ((packetByte sv scan 1 &&& 0x4) <<< 1) |||
                ((packetByte sv scan 1 &&& 0x2) <<< 2) |||
                ((packetByte sv scan 1 &&& 0x8) <<< 3) |||
                ((packetByte sv scan 1 &&& 0x10) <<< 4) : Nat) : Int) }, [])) ∧
    (∀ (fuel : Nat) (sv : VncServer) (chunks : List (List Nat)) (sv1 : VncServer)
       (stg : Staging) (evs : List Ev),
       pumpChunks fuel sv stagingInit chunks = some (sv1, stg, evs) →
       stg.new_mouse_x ≠ -1 →
       VNC_PumpMessages fuel sv chunks =
         some ({ sv1 with mouse_x := stg.new_mouse_x, mouse_y := stg.new_mouse_y },
           evs ++ [{ type := ev_mouse, data1 := stg.mouse_buttons,
                     data2 := stg.new_mouse_x - sv.mouse_x,
                     data3 := stg.new_mouse_y - sv.mouse_y }]) ∧
       (∀ e ∈ evs, e.type ≠ ev_mouse)) := by
  constructor
  · intro sv scan stg h0 hlen
    rw [handle_pointer sv scan stg h0 hlen]
    rfl
  · intro fuel sv chunks sv1 stg evs h hx
    exact pump_posts_mouse fuel sv chunks sv1 stg evs h hx

theorem pump_mouse_coalescing_witness :
    pumpChunks 5 ⟨[], false, false, 0, 10, 20, false⟩ stagingInit
        [[5, 1, 0, 10, 0, 20, 5, 6, 0, 12, 0, 22, 5, 4, 0, 15, 0, 20]] =
      some (⟨[], false, false, 0, 10, 20, false⟩, ⟨15, 20, 8⟩, []) ∧
    ((15 : Int) ≠ -1) ∧
    VNC_PumpMessages 5 ⟨[], false, false, 0, 10, 20, false⟩
        [[5, 1, 0, 10, 0, 20, 5, 6, 0, 12, 0, 22, 5, 4, 0, 15, 0, 20]] =
      some (⟨[], false, false, 0, 15, 20, false⟩, [⟨2, 8, 5, 0⟩]) :=
  ⟨by decide, by decide,
   (pump_mouse_coalescing.2 5 ⟨[], false, false, 0, 10, 20, false⟩
     [[5, 1, 0, 10, 0, 20, 5, 6, 0, 12, 0, 22, 5, 4, 0, 15, 0, 20]]
     ⟨[], false, false, 0, 10, 20, false⟩ ⟨15, 20, 8⟩ [] (by decide) (by decide)).1⟩

/-- The unshift table of the source agrees with the US-layout unshift map
the spec describes, for every printable keysym. -/
theorem unshift_table_spec :
    ∀ k : Nat, k < 128 →
      (if vnc_keysym_unshifted.getD k 0 ≠ 0 then vnc_keysym_unshifted.getD k 0 else k) =
        specUnshift k := by
  decide

theorem unshiftKey_coe (k : Nat) (hk : k < 128) : unshiftKey (k : Int) = (specUnshift k : Int) := by
  have h := unshift_table_spec k hk
  have hlk : lookupUnshifted (k : Int) = vnc_keysym_unshifted.getD k 0 := by
    unfold lookupUnshifted
    rw [Int.toNat_natCast]
  unfold unshiftKey
  rw [hlk]
  by_cases ht : vnc_keysym_unshifted.getD k 0 = 0
  · rw [if_neg (fun hc => hc.2 ht), ← h, if_neg (not_not_intro ht)]
  · rw [if_pos ⟨by omega, ht⟩, ← h, if_pos ht]

/-- No named-symbol case of the keysym switch fires for a printable keysym,
which stays itself and is known. -/
theorem translateKeysym_low (k : Int) (h0 : 0 ≤ k) (h1 : k ≤ 0x7f) :
    translateKeysym k = (k, true) := by
  have hnat : ∀ n : Nat, n < 128 → translateKeysym (n : Int) = ((n : Int), true) := by decide
  have hk : k = ((k.toNat : Nat) : Int) := (Int.toNat_of_nonneg h0).symm
  rw [hk]
  exact hnat k.toNat (by omega)

/-- Claim C7 (status `confirmed`).  A complete KeyEvent with printable
keysym `k ≤ 0x7f` posts exactly one key event: type per the down flag,
`data1` the unshifted key per the US-layout map of the spec, `data2` the
same on key-down (0 on key-up), and `data3` the original keysym exactly
when the event is a key-down and text input is enabled. -/
theorem key_event_unshift :
    ∀ (sv : VncServer) (scan : Nat) (stg : Staging),
      packetByte sv scan 0 = 4 →
      scan + 8 ≤ sv.client_packet.length →
      packetByte sv scan 4 = 0 →
      packetByte sv scan 5 = 0 →
      packetByte sv scan 6 = 0 →
      packetByte sv scan 7 ≤ 0x7f →
      HandleVNCMessage sv scan stg =
        ((scan : Int) + 8, sv, stg,
         [{ type := if packetByte sv scan 1 ≠ 0 then ev_keydown else ev_keyup,
            data1 := (specUnshift (packetByte sv scan 7) : Int),
            data2 := if packetByte sv scan 1 ≠ 0
                     then (specUnshift (packetByte sv scan 7) : Int) else 0,
            data3 := if packetByte sv scan 1 ≠ 0 ∧ sv.text_input
                     then (packetByte sv scan 7 : Int) else 0 }]) := by
  intro sv scan stg h0 hlen h4 h5 h6 h7
  have hne : ¬ (dataLeft sv scan = 0) := by unfold dataLeft; omega
  have h8 : dataLeft sv scan ≥ 8 := by unfold dataLeft; omega
  have hsym : keyEventSym sv scan = (packetByte sv scan 7 : Nat) := by
    unfold keyEventSym
    rw [h4, h5, h6]
    simp only [Nat.zero_shiftLeft, Nat.zero_or]
    unfold toInt32
    exact wrap32_small _ (by omega) (by omega)
  have htk := translateKeysym_low (packetByte sv scan 7 : Nat) (by omega) (by omega)
  simp only [HandleVNCMessage, h0, hne, h8, if_true, if_false, hsym, htk]
  norm_num
  unfold keyEvent
  rw [unshiftKey_coe _ (by omega)]
  by_cases hkd : packetByte sv scan 1 = 0 <;> simp [hkd]

theorem key_event_unshift_witness :
    packetByte ⟨[4, 1, 0, 0, 0, 0, 0, 0x41], false, true, 0, 0, 0, false⟩ 0 0 = 4 ∧
    HandleVNCMessage ⟨[4, 1, 0, 0, 0, 0, 0, 0x41], false, true, 0, 0, 0, false⟩ 0 stagingInit =
      (8, ⟨[4, 1, 0, 0, 0, 0, 0, 0x41], false, true, 0, 0, 0, false⟩, stagingInit,
       [⟨ev_keydown, 0x61, 0x61, 0x41⟩]) :=
  ⟨by decide,
   key_event_unshift ⟨[4, 1, 0, 0, 0, 0, 0, 0x41], false, true, 0, 0, 0, false⟩ 0 stagingInit
     (by decide) (by decide) (by decide) (by decide) (by decide) (by decide)⟩

/-- Claim C2, amended (status `corrected`).  A buffered ClientCutText whose
bytes are not all present — fewer than 8 buffered, or fewer than
`8 + L` where `L` is the signed 32-bit big-endian value at bytes 4..7 —
makes the dispatcher fall through to the default branch and return `-2`
with no state change and no events; and a Pump batch whose scan ends in
`-2` performs no compaction at all, leaving the buffer exactly as
received. -/
theorem cuttext_incomplete_amended :
    (∀ (sv : VncServer) (scan : Nat) (stg : Staging),
       packetByte sv scan 0 = 6 →
       scan < sv.client_packet.length →
       (dataLeft sv scan < 8 ∨ ((dataLeft sv scan : Int) < cutTextLength sv scan)) →
       HandleVNCMessage sv scan stg = (-2, sv, stg, [])) ∧
    (∀ (fuel : Nat) (sv : VncServer) (stg : Staging) (chunk : List Nat)
       (old : Nat) (sv2 : VncServer) (stg2 : Staging) (evs : List Ev),
       scanLoop fuel { sv with client_packet := sv.client_packet ++ chunk } 0 stg [] =
         some (-2, old, sv2, stg2, evs) →
       pumpChunks fuel sv stg [chunk] = some (sv2, stg2, evs) ∧
       sv2.client_packet = sv.client_packet ++ chunk) := by
  constructor
  · intro sv scan stg h0 hlt hinc
    have hne : ¬ (dataLeft sv scan = 0) := by unfold dataLeft; omega
    simp only [HandleVNCMessage, h0, hne, if_true, if_false]
    norm_num
    intro hA hB
    rcases hinc with h | h <;> omega
  · intro fuel sv stg chunk old sv2 stg2 evs h
    have hinv := scanLoop_inv fuel _ 0 stg [] (-2) old sv2 stg2 evs h
    constructor
    · simp only [pumpChunks, h, if_pos rfl]
      simp
    · exact hinv.1

theorem cuttext_incomplete_amended_witness :
    (packetByte ⟨[6], false, false, 0, 0, 0, false⟩ 0 0 = 6 ∧
     0 < (⟨[6], false, false, 0, 0, 0, false⟩ : VncServer).client_packet.length ∧
     dataLeft ⟨[6], false, false, 0, 0, 0, false⟩ 0 < 8) ∧
    HandleVNCMessage ⟨[6], false, false, 0, 0, 0, false⟩ 0 stagingInit =
      (-2, ⟨[6], false, false, 0, 0, 0, false⟩, stagingInit, []) :=
  ⟨⟨by decide, by decide, by decide⟩,
   cuttext_incomplete_amended.1 ⟨[6], false, false, 0, 0, 0, false⟩ 0 stagingInit
     (by decide) (by decide) (Or.inl (by decide))⟩

end VncSpec
